import Mathlib

/-!
Verification development for the Mini MMORPG game client (`src/game.js`).

The client keeps a local mirror of the server's entity set (`players`),
per-entity interpolation state (`playerPositions`, `playerTargets`),
a camera, a key-press map driving a continuous-movement interval timer,
and a reconnecting WebSocket session.  The definitions below are a shallow
embedding of the relevant handlers; JS numbers are modelled as rationals,
JS objects keyed by player id as association lists.
-/

namespace GameClient

/-- A 2-D world-space point (JS `{x, y}` object). -/
structure Pos where
  x : ℚ
  y : ℚ
deriving DecidableEq, Repr

/-- One networked entity as stored in `this.players`. -/
structure Player where
  id : String
  x : ℚ
  y : ℚ
  facing : String
  isMoving : Bool
  username : String
  avatar : String
deriving DecidableEq, Repr

/-- A partial entity record inside a `players_moved` message: every field
is optional; the JS merge `{...old, ...patch}` overrides exactly the
supplied fields. -/
structure PlayerPatch where
  idF : Option String
  xF : Option ℚ
  yF : Option ℚ
  facingF : Option String
  isMovingF : Option Bool
  usernameF : Option String
  avatarF : Option String
deriving DecidableEq, Repr

/-- Lookup in an association list keyed by player id (JS `obj[id]`). -/
def lookupKey {α : Type} : List (String × α) → String → Option α
  | [], _ => none
  | e :: rest, i => if e.1 = i then some e.2 else lookupKey rest i

/-- Remove a key from an association list (JS `delete obj[id]`). -/
def removeKey {α : Type} : List (String × α) → String → List (String × α)
  | [], _ => []
  | e :: rest, i => if e.1 = i then removeKey rest i else e :: removeKey rest i

/-- Set a key in an association list (JS `obj[id] = v`). -/
def setKey {α : Type} (l : List (String × α)) (i : String) (v : α) : List (String × α) :=
  (i, v) :: removeKey l i

/-- JS spread merge `{...p, ...u}`: each field present in the patch
overrides, each absent field is preserved. -/
def mergePlayer (p : Player) (u : PlayerPatch) : Player :=
  { id := u.idF.getD p.id
    x := u.xF.getD p.x
    y := u.yF.getD p.y
    facing := u.facingF.getD p.facing
    isMoving := u.isMovingF.getD p.isMoving
    username := u.usernameF.getD p.username
    avatar := u.avatarF.getD p.avatar }

/-- The per-frame interpolation factor (`const lerpSpeed = 0.15`). -/
def lerpSpeed : ℚ := 15 / 100

/-- One scalar interpolation step: `current += (target - current) * lerpSpeed`. -/
def lerpStep (current target : ℚ) : ℚ :=
  current + (target - current) * lerpSpeed

/-- One interpolation step applied to both axes of a position, as in
`updatePlayerInterpolation`. -/
def lerpPos (current target : Pos) : Pos :=
  ⟨lerpStep current.x target.x, lerpStep current.y target.y⟩

end GameClient

namespace GameClient

theorem lerpStep_sub_target (c t : ℚ) :
    lerpStep c t - t = (c - t) * (17 / 20) := by
  unfold lerpStep lerpSpeed; ring

theorem lerpStep_abs_lt (c t : ℚ) (h : c ≠ t) :
    |lerpStep c t - t| < |c - t| := by
  rw [lerpStep_sub_target, abs_mul]
  have h17 : |(17 / 20 : ℚ)| = 17 / 20 := by norm_num
  rw [h17]
  have hpos : 0 < |c - t| := abs_pos.mpr (sub_ne_zero.mpr h)
  nlinarith

theorem lerpStep_between_le (c t : ℚ) (h : c ≤ t) :
    c ≤ lerpStep c t ∧ lerpStep c t ≤ t := by
  unfold lerpStep lerpSpeed
  constructor <;> nlinarith

theorem lerpStep_between_ge (c t : ℚ) (h : t ≤ c) :
    t ≤ lerpStep c t ∧ lerpStep c t ≤ c := by
  unfold lerpStep lerpSpeed
  constructor <;> nlinarith

/-- C2: for a fixed interpolation target, each step
`current += (target - current) * 0.15` strictly decreases the distance to
the target on any axis where they differ, and on each axis the new value
stays between the old value and the target (no overshoot). -/
theorem interpolation_step_converges (c t : Pos) :
    (c.x ≠ t.x → |(lerpPos c t).x - t.x| < |c.x - t.x|) ∧
    (c.y ≠ t.y → |(lerpPos c t).y - t.y| < |c.y - t.y|) ∧
    (c.x ≤ t.x → c.x ≤ (lerpPos c t).x ∧ (lerpPos c t).x ≤ t.x) ∧
    (t.x ≤ c.x → t.x ≤ (lerpPos c t).x ∧ (lerpPos c t).x ≤ c.x) ∧
    (c.y ≤ t.y → c.y ≤ (lerpPos c t).y ∧ (lerpPos c t).y ≤ t.y) ∧
    (t.y ≤ c.y → t.y ≤ (lerpPos c t).y ∧ (lerpPos c t).y ≤ c.y) := by
  refine ⟨fun h => lerpStep_abs_lt _ _ h, fun h => lerpStep_abs_lt _ _ h,
    fun h => lerpStep_between_le _ _ h, fun h => lerpStep_between_ge _ _ h,
    fun h => lerpStep_between_le _ _ h, fun h => lerpStep_between_ge _ _ h⟩

/-- Witness for C2 at current `(0, 10)`, target `(8, 10)`. -/
theorem interpolation_step_converges_witness :
    |(lerpPos ⟨0, 10⟩ ⟨8, 10⟩).x - (8 : ℚ)| < |(0 : ℚ) - 8| ∧
    (0 : ℚ) ≤ (lerpPos ⟨0, 10⟩ ⟨8, 10⟩).x ∧ (lerpPos ⟨0, 10⟩ ⟨8, 10⟩).x ≤ 8 := by
  have h := interpolation_step_converges ⟨0, 10⟩ ⟨8, 10⟩
  exact ⟨h.1 (by norm_num), h.2.2.1 (by norm_num)⟩

/-- Milliseconds per animation frame (`const frameSpeed = 200`). -/
def frameSpeed : ℚ := 200

/-- Frames per walk cycle (`const numFrames = 3`). -/
def numFrames : ℤ := 3

/-- Animation frame selection from `drawPlayer`: `animationFrame = 0`,
overridden for a moving player by
`Math.floor(this.animationTimer / frameSpeed) % numFrames` (JS `%` is the
truncating remainder, `Int.tmod`). -/
def animationFrameIndex (isMoving : Bool) (animationTimer : ℚ) : ℤ :=
  if isMoving then Int.tmod ⌊animationTimer / frameSpeed⌋ numFrames else 0

/-- C8: a moving entity's frame index is `⌊elapsed / 200⌋ mod 3` (so 2 at
450 ms), and a non-moving entity's frame index is 0 at every elapsed time. -/
theorem animation_frame_selection :
    (∀ t : ℚ, 0 ≤ t → animationFrameIndex true t = ⌊t / 200⌋ % 3) ∧
    (∀ t : ℚ, animationFrameIndex false t = 0) ∧
    animationFrameIndex true 450 = 2 := by
  refine ⟨fun t ht => ?_, fun t => rfl, ?_⟩
  · show Int.tmod ⌊t / frameSpeed⌋ numFrames = ⌊t / 200⌋ % 3
    unfold frameSpeed numFrames
    exact Int.tmod_eq_emod (Int.floor_nonneg.mpr (by positivity)) (by norm_num)
  · show Int.tmod ⌊(450 : ℚ) / frameSpeed⌋ numFrames = 2
    unfold frameSpeed numFrames
    rw [show ⌊(450 : ℚ) / 200⌋ = 2 by norm_num]
    decide

/-- Witness for C8 at 450 ms elapsed. -/
theorem animation_frame_selection_witness :
    animationFrameIndex true 450 = ⌊(450 : ℚ) / 200⌋ % 3 :=
  animation_frame_selection.1 450 (by norm_num)

end GameClient

namespace GameClient

theorem lookupKey_removeKey {α : Type} (l : List (String × α)) (i j : String) :
    lookupKey (removeKey l i) j = if i = j then none else lookupKey l j := by
  induction l with
  | nil => simp [removeKey, lookupKey]
  | cons e rest ih =>
    by_cases h1 : e.1 = i
    · rw [removeKey, if_pos h1, ih, lookupKey]
      by_cases h2 : i = j
      · simp [h2]
      · rw [if_neg h2, if_neg h2, if_neg (by rw [h1]; exact h2)]
    · rw [removeKey, if_neg h1, lookupKey, lookupKey]
      by_cases h2 : e.1 = j
      · rw [if_pos h2, if_pos h2, if_neg (fun h => h1 (h2.trans h.symm))]
      · rw [if_neg h2, if_neg h2, ih]

theorem lookupKey_setKey {α : Type} (l : List (String × α)) (i j : String) (v : α) :
    lookupKey (setKey l i v) j = if i = j then some v else lookupKey l j := by
  rw [setKey, lookupKey, lookupKey_removeKey]
  by_cases h : i = j <;> simp [h]

theorem lookupKey_isSome_of_mem {α : Type} (l : List (String × α)) (e : String × α)
    (hmem : e ∈ l) : (lookupKey l e.1).isSome = true := by
  induction l with
  | nil => cases hmem
  | cons a rest ih =>
    rw [lookupKey]
    by_cases h : a.1 = e.1
    · simp [h]
    · rw [if_neg h]
      rcases List.mem_cons.mp hmem with h1 | h1
      · exact absurd (congrArg Prod.fst h1).symm h
      · exact ih h1

/-- Processing of one entry of a `players_moved` message, from
`handlePlayersMove`: ids absent from the local store are skipped, present
ids get the spread-merge of the supplied fields. -/
def applyMoveEntry (players : List (String × Player)) (e : String × PlayerPatch) :
    List (String × Player) :=
  match lookupKey players e.1 with
  | some p => setKey players e.1 (mergePlayer p e.2)
  | none => players

/-- The `players_moved` handler's effect on the entity store: the JS
`for (const playerId in message.players)` loop folded over the update's
entries. -/
def handlePlayersMovePlayers (players : List (String × Player))
    (updates : List (String × PlayerPatch)) : List (String × Player) :=
  updates.foldl applyMoveEntry players

theorem lookupKey_applyMoveEntry_ne (players : List (String × Player))
    (e : String × PlayerPatch) (j : String) (hj : e.1 ≠ j) :
    lookupKey (applyMoveEntry players e) j = lookupKey players j := by
  rw [applyMoveEntry]
  cases lookupKey players e.1 with
  | none => rfl
  | some p => rw [lookupKey_setKey, if_neg hj]

theorem lookupKey_applyMoveEntry_self (players : List (String × Player))
    (e : String × PlayerPatch) :
    lookupKey (applyMoveEntry players e) e.1 =
      (lookupKey players e.1).map (fun p => mergePlayer p e.2) := by
  rw [applyMoveEntry]
  cases h : lookupKey players e.1 with
  | none => rw [h]; rfl
  | some p => rw [lookupKey_setKey, if_pos rfl]; rfl

theorem lookupKey_foldl_not_mem (updates : List (String × PlayerPatch)) :
    ∀ (players : List (String × Player)) (j : String),
      (∀ e ∈ updates, e.1 ≠ j) →
      lookupKey (updates.foldl applyMoveEntry players) j = lookupKey players j := by
  induction updates with
  | nil => intro players j _; rfl
  | cons e rest ih =>
    intro players j hj
    rw [List.foldl_cons, ih (applyMoveEntry players e) j
        (fun a ha => hj a (List.mem_cons_of_mem _ ha)),
      lookupKey_applyMoveEntry_ne players e j (hj e (List.mem_cons_self _ _))]

theorem lookupKey_handlePlayersMovePlayers (updates : List (String × PlayerPatch)) :
    ∀ (players : List (String × Player)) (i : String) (u : PlayerPatch),
      (updates.map Prod.fst).Nodup → (i, u) ∈ updates →
      lookupKey (handlePlayersMovePlayers players updates) i =
        (lookupKey players i).map (fun p => mergePlayer p u) := by
  induction updates with
  | nil => intro players i u _ hmem; cases hmem
  | cons e rest ih =>
    intro players i u hnodup hmem
    rw [List.map_cons] at hnodup
    rw [handlePlayersMovePlayers, List.foldl_cons]
    rcases List.mem_cons.mp hmem with h1 | h1
    · have hi : e.1 = i := (congrArg Prod.fst h1).symm
      have hnot : i ∉ rest.map Prod.fst := by
        have h2 := (List.nodup_cons.mp hnodup).1
        rwa [hi] at h2
      rw [lookupKey_foldl_not_mem rest (applyMoveEntry players e) i
          (fun a ha hai => hnot (List.mem_map.mpr ⟨a, ha, hai⟩)),
        ← hi, lookupKey_applyMoveEntry_self]
      have he2 : e.2 = u := (congrArg Prod.snd h1).symm
      rw [he2]
    · have hne : e.1 ≠ i := by
        intro h
        have h2 : i ∈ rest.map Prod.fst := List.mem_map.mpr ⟨(i, u), h1, rfl⟩
        exact (List.nodup_cons.mp hnodup).1 (h ▸ h2)
      have h3 := ih (applyMoveEntry players e) i u
        (List.nodup_cons.mp hnodup).2 h1
      rw [handlePlayersMovePlayers] at h3
      rw [h3, lookupKey_applyMoveEntry_ne players e i hne]

/-- C1: applying a `players_moved` update (with the distinct ids of a JS
object) to the store merges, for each id in the update that is present in
the store, exactly the supplied fields into the existing record — absent
fields keep their prior value, supplied fields take the supplied value —
and every id in the update that is absent from the store stays absent
(no entity is created, the store is unchanged at that id). -/
theorem players_moved_partial_merge (players : List (String × Player))
    (updates : List (String × PlayerPatch))
    (hnodup : (updates.map Prod.fst).Nodup)
    (i : String) (u : PlayerPatch) (hmem : (i, u) ∈ updates) :
    lookupKey (handlePlayersMovePlayers players updates) i =
      (lookupKey players i).map (fun p => mergePlayer p u) ∧
    (lookupKey players i = none →
      lookupKey (handlePlayersMovePlayers players updates) i = none) ∧
    (∀ p : Player,
      (u.idF = none → (mergePlayer p u).id = p.id) ∧
      (u.xF = none → (mergePlayer p u).x = p.x) ∧
      (u.yF = none → (mergePlayer p u).y = p.y) ∧
      (u.facingF = none → (mergePlayer p u).facing = p.facing) ∧
      (u.isMovingF = none → (mergePlayer p u).isMoving = p.isMoving) ∧
      (u.usernameF = none → (mergePlayer p u).username = p.username) ∧
      (u.avatarF = none → (mergePlayer p u).avatar = p.avatar) ∧
      (∀ v, u.xF = some v → (mergePlayer p u).x = v) ∧
      (∀ v, u.yF = some v → (mergePlayer p u).y = v) ∧
      (∀ v, u.facingF = some v → (mergePlayer p u).facing = v) ∧
      (∀ v, u.isMovingF = some v → (mergePlayer p u).isMoving = v)) := by
  have hmain := lookupKey_handlePlayersMovePlayers updates players i u hnodup hmem
  refine ⟨hmain, fun hnone => by rw [hmain, hnone]; rfl, ?_⟩
  intro p
  refine ⟨?_, ?_, ?_, ?_, ?_, ?_, ?_, ?_, ?_, ?_, ?_⟩ <;>
    first
      | (intro h; simp [mergePlayer, h])
      | (intro v h; simp [mergePlayer, h])

/-- Witness for C1: a one-entry update that supplies only `x` and
`isMoving` merges into the stored record, and an update for an id absent
from the store leaves that id absent. -/
theorem players_moved_partial_merge_witness :
    lookupKey
        (handlePlayersMovePlayers
          [("p1", ⟨"p1", 5, 6, "south", false, "alice", "a1"⟩)]
          [("p1", ⟨none, some 7, none, none, some true, none, none⟩),
           ("p9", ⟨none, some 1, none, none, none, none, none⟩)]) "p1" =
      some ⟨"p1", 7, 6, "south", true, "alice", "a1"⟩ ∧
    lookupKey
        (handlePlayersMovePlayers
          [("p1", ⟨"p1", 5, 6, "south", false, "alice", "a1"⟩)]
          [("p1", ⟨none, some 7, none, none, some true, none, none⟩),
           ("p9", ⟨none, some 1, none, none, none, none, none⟩)]) "p9" = none := by
  constructor
  · have h := players_moved_partial_merge
      [("p1", ⟨"p1", 5, 6, "south", false, "alice", "a1"⟩)]
      [("p1", ⟨none, some 7, none, none, some true, none, none⟩),
       ("p9", ⟨none, some 1, none, none, none, none, none⟩)]
      (by simp) "p1" ⟨none, some 7, none, none, some true, none, none⟩ (by simp)
    rw [h.1]; rfl
  · have h := players_moved_partial_merge
      [("p1", ⟨"p1", 5, 6, "south", false, "alice", "a1"⟩)]
      [("p1", ⟨none, some 7, none, none, some true, none, none⟩),
       ("p9", ⟨none, some 1, none, none, none, none, none⟩)]
      (by simp) "p9" ⟨none, some 1, none, none, none, none, none⟩ (by simp)
    exact h.2.1 rfl

end GameClient

namespace GameClient

/-- The message-handling portion of the client's state: the entity store
and the two interpolation maps, plus the local player id.  `myPlayer` is
not stored: the code recomputes it as `this.players[this.playerId]` after
every mutation, so it is derived state here. -/
structure GameState where
  playerId : Option String
  players : List (String × Player)
  playerPositions : List (String × Pos)
  playerTargets : List (String × Pos)
deriving DecidableEq, Repr

/-- `handleJoinGameSuccess`: stores the local id and replaces the entity
set wholesale; the interpolation maps are NOT touched by the code. -/
def handleJoinGameSuccess (s : GameState) (pid : String)
    (snapshot : List (String × Player)) : GameState :=
  { s with playerId := some pid, players := snapshot }

/-- `handlePlayersMove` as a state transition (the merge loop of C1). -/
def handlePlayersMove (s : GameState) (updates : List (String × PlayerPatch)) :
    GameState :=
  { s with players := handlePlayersMovePlayers s.players updates }

/-- `handlePlayerJoined`: upserts one entity. -/
def handlePlayerJoined (s : GameState) (p : Player) : GameState :=
  { s with players := setKey s.players p.id p }

/-- `handlePlayerLeft`: deletes the entity, its interpolated position and
its target. -/
def handlePlayerLeft (s : GameState) (i : String) : GameState :=
  { s with players := removeKey s.players i
           playerPositions := removeKey s.playerPositions i
           playerTargets := removeKey s.playerTargets i }

/-- The body of `updatePlayerInterpolation`'s loop for one entity:
initialise both maps when the position entry is missing, refresh the
target when the authoritative position changed, then advance the current
position one lerp step. -/
def interpolateEntry (pt : List (String × Pos) × List (String × Pos))
    (e : String × Player) : List (String × Pos) × List (String × Pos) :=
  let i := e.1
  let p := e.2
  let positions0 := pt.1
  let targets0 := pt.2
  let positions1 :=
    match lookupKey positions0 i with
    | none => setKey positions0 i ⟨p.x, p.y⟩
    | some _ => positions0
  let targets1 :=
    match lookupKey positions0 i with
    | none => setKey targets0 i ⟨p.x, p.y⟩
    | some _ => targets0
  let targets2 :=
    if lookupKey targets1 i = some ⟨p.x, p.y⟩ then targets1
    else setKey targets1 i ⟨p.x, p.y⟩
  let positions2 :=
    match lookupKey positions1 i, lookupKey targets2 i with
    | some cur, some tgt => setKey positions1 i (lerpPos cur tgt)
    | _, _ => positions1
  (positions2, targets2)

/-- `updatePlayerInterpolation`: the `for (const playerId in this.players)`
loop folded over the entity store. -/
def updatePlayerInterpolation (s : GameState) : GameState :=
  let pt := s.players.foldl interpolateEntry (s.playerPositions, s.playerTargets)
  { s with playerPositions := pt.1, playerTargets := pt.2 }

/-- Inbound server messages (`handleServerMessage`'s switch). -/
inductive ServerMsg where
  | joinSuccess (playerId : String) (players : List (String × Player))
  | joinFailure
  | playersMoved (updates : List (String × PlayerPatch))
  | playerJoined (p : Player)
  | playerLeft (i : String)
  | unknown
deriving DecidableEq, Repr

/-- `handleServerMessage`: dispatch on the `action` discriminator; a
failed join and an unrecognized action leave the state unchanged. -/
def handleServerMessage (s : GameState) : ServerMsg → GameState
  | .joinSuccess pid ps => handleJoinGameSuccess s pid ps
  | .joinFailure => s
  | .playersMoved u => handlePlayersMove s u
  | .playerJoined p => handlePlayerJoined s p
  | .playerLeft i => handlePlayerLeft s i
  | .unknown => s

/-- An event of the message-handling state machine: an inbound server
message or one frame of the render loop (which advances interpolation). -/
inductive GameEvent where
  | server (m : ServerMsg)
  | frameTick
deriving DecidableEq, Repr

def stepGame (s : GameState) : GameEvent → GameState
  | .server m => handleServerMessage s m
  | .frameTick => updatePlayerInterpolation s

def runGame (s : GameState) (es : List GameEvent) : GameState :=
  es.foldl stepGame s

/-- The state at page load: no id, empty store, empty interpolation maps. -/
def initGameState : GameState := ⟨none, [], [], []⟩

/-- Whether an event is a join-success snapshot (the one update that
replaces the whole entity set). -/
def isJoinSnapshot : GameEvent → Bool
  | .server (.joinSuccess _ _) => true
  | _ => false

/-- No interpolation record dangles: an id absent from the entity store
has neither an interpolated position nor a target. -/
def NoDangling (s : GameState) : Prop :=
  ∀ i : String, lookupKey s.players i = none →
    lookupKey s.playerPositions i = none ∧ lookupKey s.playerTargets i = none

theorem lookupKey_removeKey_self {α : Type} (l : List (String × α)) (i : String) :
    lookupKey (removeKey l i) i = none := by
  rw [lookupKey_removeKey, if_pos rfl]

theorem lookupKey_applyMoveEntry_none (players : List (String × Player))
    (e : String × PlayerPatch) (j : String)
    (h : lookupKey (applyMoveEntry players e) j = none) :
    lookupKey players j = none := by
  rw [applyMoveEntry] at h
  cases h0 : lookupKey players e.1 with
  | none => rwa [h0] at h
  | some p =>
    rw [h0, lookupKey_setKey] at h
    by_cases hj : e.1 = j
    · rw [if_pos hj] at h; cases h
    · rwa [if_neg hj] at h

theorem lookupKey_hpm_none (updates : List (String × PlayerPatch)) :
    ∀ (players : List (String × Player)) (j : String),
      lookupKey (handlePlayersMovePlayers players updates) j = none →
      lookupKey players j = none := by
  induction updates with
  | nil => intro players j h; exact h
  | cons e rest ih =>
    intro players j h
    rw [handlePlayersMovePlayers, List.foldl_cons] at h
    exact lookupKey_applyMoveEntry_none players e j (ih (applyMoveEntry players e) j h)

theorem interpolateEntry_lookup_ne (pt : List (String × Pos) × List (String × Pos))
    (e : String × Player) (j : String) (h : e.1 ≠ j) :
    lookupKey (interpolateEntry pt e).1 j = lookupKey pt.1 j ∧
    lookupKey (interpolateEntry pt e).2 j = lookupKey pt.2 j := by
  simp only [interpolateEntry]
  cases h0 : lookupKey pt.1 e.1 <;>
    (constructor <;>
      · repeat' split
        all_goals simp_all [lookupKey_setKey, if_neg h])

theorem tick_lookup_ne (players : List (String × Player)) :
    ∀ (pt : List (String × Pos) × List (String × Pos)) (j : String),
      (∀ e ∈ players, e.1 ≠ j) →
      lookupKey (players.foldl interpolateEntry pt).1 j = lookupKey pt.1 j ∧
      lookupKey (players.foldl interpolateEntry pt).2 j = lookupKey pt.2 j := by
  induction players with
  | nil => intro pt j _; exact ⟨rfl, rfl⟩
  | cons e rest ih =>
    intro pt j hall
    rw [List.foldl_cons]
    have h1 := ih (interpolateEntry pt e) j
      (fun a ha => hall a (List.mem_cons_of_mem _ ha))
    have h2 := interpolateEntry_lookup_ne pt e j (hall e (List.mem_cons_self _ _))
    exact ⟨h1.1.trans h2.1, h1.2.trans h2.2⟩

/-- C3 counterexample: after joining as `"p7"`, one frame tick, and a
reconnect join-success whose snapshot no longer contains `"p7"`, the store
has no entity `"p7"` but both interpolation maps still hold an entry for
it — `handleJoinGameSuccess` replaces the entity set without clearing
`playerPositions`/`playerTargets`. -/
theorem no_dangling_counterexample :
    lookupKey
        (runGame initGameState
          [.server (.joinSuccess "p7" [("p7", ⟨"p7", 10, 20, "south", false, "alice", "a1"⟩)]),
           .frameTick,
           .server (.joinSuccess "p8" [("p8", ⟨"p8", 3, 4, "north", true, "bob", "a2"⟩)])]).players
        "p7" = none ∧
    lookupKey
        (runGame initGameState
          [.server (.joinSuccess "p7" [("p7", ⟨"p7", 10, 20, "south", false, "alice", "a1"⟩)]),
           .frameTick,
           .server (.joinSuccess "p8" [("p8", ⟨"p8", 3, 4, "north", true, "bob", "a2"⟩)])]).playerPositions
        "p7" = some ⟨10, 20⟩ ∧
    lookupKey
        (runGame initGameState
          [.server (.joinSuccess "p7" [("p7", ⟨"p7", 10, 20, "south", false, "alice", "a1"⟩)]),
           .frameTick,
           .server (.joinSuccess "p8" [("p8", ⟨"p8", 3, 4, "north", true, "bob", "a2"⟩)])]).playerTargets
        "p7" = some ⟨10, 20⟩ := by
  refine ⟨rfl, ?_, rfl⟩
  show some (lerpPos ⟨10, 20⟩ ⟨10, 20⟩) = some ⟨10, 20⟩
  norm_num [lerpPos, lerpStep]

/-- C3 amended: `player_left` for an id removes that id from the entity
store and from both interpolation maps (no residual entry is queryable),
and every event other than a join-success snapshot preserves the
no-dangling invariant from the initial state; a join-success snapshot,
however, replaces the entity set without clearing the interpolation maps,
so it can leave interpolation records keyed by ids absent from the new
snapshot. -/
theorem player_left_no_dangling :
    (∀ (s : GameState) (i : String),
      lookupKey (handlePlayerLeft s i).players i = none ∧
      lookupKey (handlePlayerLeft s i).playerPositions i = none ∧
      lookupKey (handlePlayerLeft s i).playerTargets i = none) ∧
    (∀ (s : GameState) (e : GameEvent),
      NoDangling s → isJoinSnapshot e = false → NoDangling (stepGame s e)) ∧
    NoDangling initGameState := by
  refine ⟨?_, ?_, ?_⟩
  · intro s i
    exact ⟨lookupKey_removeKey_self _ _, lookupKey_removeKey_self _ _,
      lookupKey_removeKey_self _ _⟩
  · intro s e hInv hsnap
    cases e with
    | frameTick =>
      intro j hj
      have hjp : lookupKey s.players j = none := hj
      have hall : ∀ a ∈ s.players, a.1 ≠ j := by
        intro a ha haj
        have hs := lookupKey_isSome_of_mem s.players a ha
        rw [haj, hjp] at hs
        cases hs
      have hfold := tick_lookup_ne s.players (s.playerPositions, s.playerTargets) j hall
      have h0 := hInv j hjp
      exact ⟨hfold.1.trans h0.1, hfold.2.trans h0.2⟩
    | server m =>
      cases m with
      | joinSuccess pid ps => cases hsnap
      | joinFailure => exact hInv
      | unknown => exact hInv
      | playersMoved u =>
        intro j hj
        exact hInv j (lookupKey_hpm_none u s.players j hj)
      | playerJoined p =>
        intro j hj
        have hjp : lookupKey s.players j = none := by
          rw [show (stepGame s (.server (.playerJoined p))).players
              = setKey s.players p.id p from rfl, lookupKey_setKey] at hj
          by_cases hpj : p.id = j
          · rw [if_pos hpj] at hj; cases hj
          · rwa [if_neg hpj] at hj
        exact hInv j hjp
      | playerLeft i =>
        intro j hj
        by_cases hij : i = j
        · exact ⟨by rw [show (stepGame s (.server (.playerLeft i))).playerPositions
              = removeKey s.playerPositions i from rfl, lookupKey_removeKey, if_pos hij],
            by rw [show (stepGame s (.server (.playerLeft i))).playerTargets
              = removeKey s.playerTargets i from rfl, lookupKey_removeKey, if_pos hij]⟩
        · have hjp : lookupKey s.players j = none := by
            rw [show (stepGame s (.server (.playerLeft i))).players
                = removeKey s.players i from rfl, lookupKey_removeKey, if_neg hij] at hj
            exact hj
          have h0 := hInv j hjp
          constructor
          · rw [show (stepGame s (.server (.playerLeft i))).playerPositions
                = removeKey s.playerPositions i from rfl, lookupKey_removeKey, if_neg hij]
            exact h0.1
          · rw [show (stepGame s (.server (.playerLeft i))).playerTargets
                = removeKey s.playerTargets i from rfl, lookupKey_removeKey, if_neg hij]
            exact h0.2
  · intro i _
    exact ⟨rfl, rfl⟩

/-- Witness for the amended C3 at a concrete state and event: deleting
`"p7"` leaves nothing queryable under `"p7"`, and one frame tick from the
initial state keeps the no-dangling invariant at id `"q"`. -/
theorem player_left_no_dangling_witness :
    lookupKey (handlePlayerLeft
        ⟨some "p7", [("p7", ⟨"p7", 10, 20, "south", false, "alice", "a1"⟩)],
         [("p7", ⟨10, 20⟩)], [("p7", ⟨10, 20⟩)]⟩ "p7").playerPositions "p7" = none ∧
    lookupKey (stepGame initGameState .frameTick).playerPositions "q" = none := by
  refine ⟨(player_left_no_dangling.1
      ⟨some "p7", [("p7", ⟨"p7", 10, 20, "south", false, "alice", "a1"⟩)],
       [("p7", ⟨10, 20⟩)], [("p7", ⟨10, 20⟩)]⟩ "p7").2.1, ?_⟩
  exact ((player_left_no_dangling.2.1 initGameState .frameTick
    player_left_no_dangling.2.2 rfl) "q" rfl).1

end GameClient

namespace GameClient

/-- The camera easing factor (`this.cameraEasing = 0.1`). -/
def cameraEasing : ℚ := 1 / 10

/-- World dimensions (`this.worldWidth = 2048`, `this.worldHeight = 2048`). -/
def worldWidth : ℚ := 2048

def worldHeight : ℚ := 2048

/-- One axis of `updateCameraSmooth`: ease toward the target by the fixed
factor, then clamp with `Math.max(0, Math.min(cam, maxC))`. -/
def easeAndClampAxis (cam target maxC : ℚ) : ℚ :=
  max 0 (min (cam + (target - cam) * cameraEasing) maxC)

/-- The per-frame camera update on one axis, with the code's target
`playerPos - (canvasDim / zoom) / 2` and clamp bound
`worldDim - canvasDim / zoom`. -/
def updateCameraAxis (cam playerPos canvasDim worldDim zoom : ℚ) : ℚ :=
  easeAndClampAxis cam (playerPos - canvasDim / zoom / 2) (worldDim - canvasDim / zoom)

/-- The full `updateCameraSmooth` step on the camera position. -/
def updateCameraSmooth (playerPos : Pos) (canvasW canvasH zoom : ℚ) (cam : Pos) : Pos :=
  ⟨updateCameraAxis cam.x playerPos.x canvasW worldWidth zoom,
   updateCameraAxis cam.y playerPos.y canvasH worldHeight zoom⟩

/-- Iterating the per-frame camera update for a stationary player. -/
def camIterAxis (playerPos canvasDim worldDim zoom : ℚ) : ℕ → ℚ → ℚ
  | 0, cam => cam
  | n + 1, cam =>
    camIterAxis playerPos canvasDim worldDim zoom n
      (updateCameraAxis cam playerPos canvasDim worldDim zoom)

/-- The limit of the camera iteration on one axis: the centering target
clamped to `[0, worldDim - canvasDim / zoom]`. -/
def camLimitAxis (playerPos canvasDim worldDim zoom : ℚ) : ℚ :=
  max 0 (min (playerPos - canvasDim / zoom / 2) (worldDim - canvasDim / zoom))

theorem clampZero_lipschitz (a b m : ℚ) :
    |max 0 (min a m) - max 0 (min b m)| ≤ |a - b| := by
  have h2 : |min a m - min b m| ≤ |a - b| := by
    have h3 := abs_min_sub_min_le_max a m b m
    rwa [sub_self, abs_zero, max_eq_left (abs_nonneg _)] at h3
  calc |max 0 (min a m) - max 0 (min b m)|
      = |max (min a m) 0 - max (min b m) 0| := by
        rw [max_comm 0 (min a m), max_comm 0 (min b m)]
    _ ≤ |min a m - min b m| := abs_max_sub_max_le_abs _ _ _
    _ ≤ |a - b| := h2

theorem easeAndClampAxis_fixed (t m : ℚ) (hm : 0 ≤ m) :
    easeAndClampAxis (max 0 (min t m)) t m = max 0 (min t m) := by
  rcases le_total t 0 with ht | ht
  · have hL : max 0 (min t m) = 0 := by
      rw [min_eq_left (ht.trans hm)]; exact max_eq_left ht
    rw [hL]
    unfold easeAndClampAxis cameraEasing
    rw [show (0 : ℚ) + (t - 0) * (1 / 10) = t / 10 by ring,
      min_eq_left (by linarith), max_eq_left (by linarith)]
  · rcases le_total t m with htm | htm
    · have hL : max 0 (min t m) = t := by
        rw [min_eq_left htm]; exact max_eq_right ht
      rw [hL]
      unfold easeAndClampAxis cameraEasing
      rw [show t + (t - t) * (1 / 10) = t by ring, min_eq_left htm, max_eq_right ht]
    · have hL : max 0 (min t m) = m := by
        rw [min_eq_right htm]; exact max_eq_right hm
      rw [hL]
      unfold easeAndClampAxis cameraEasing
      rw [min_eq_right (by nlinarith), max_eq_right hm]

theorem easeAndClampAxis_contraction (cam t m : ℚ) (hm : 0 ≤ m) :
    |easeAndClampAxis cam t m - max 0 (min t m)| ≤
      9 / 10 * |cam - max 0 (min t m)| := by
  have hfix := easeAndClampAxis_fixed t m hm
  calc |easeAndClampAxis cam t m - max 0 (min t m)|
      = |easeAndClampAxis cam t m - easeAndClampAxis (max 0 (min t m)) t m| := by
        rw [hfix]
    _ ≤ |(cam + (t - cam) * cameraEasing) -
          (max 0 (min t m) + (t - max 0 (min t m)) * cameraEasing)| :=
        clampZero_lipschitz _ _ m
    _ = 9 / 10 * |cam - max 0 (min t m)| := by
        rw [show (cam + (t - cam) * cameraEasing) -
              (max 0 (min t m) + (t - max 0 (min t m)) * cameraEasing) =
            9 / 10 * (cam - max 0 (min t m)) by unfold cameraEasing; ring,
          abs_mul]
        norm_num

theorem camIterAxis_bound (p cD wD z : ℚ) (hm : 0 ≤ wD - cD / z) :
    ∀ (n : ℕ) (cam : ℚ),
      |camIterAxis p cD wD z n cam - camLimitAxis p cD wD z| ≤
        (9 / 10) ^ n * |cam - camLimitAxis p cD wD z| := by
  intro n
  induction n with
  | zero => intro cam; rw [camIterAxis, pow_zero, one_mul]
  | succ k ih =>
    intro cam
    rw [camIterAxis]
    calc |camIterAxis p cD wD z k (updateCameraAxis cam p cD wD z) -
            camLimitAxis p cD wD z|
        ≤ (9 / 10) ^ k * |updateCameraAxis cam p cD wD z - camLimitAxis p cD wD z| :=
          ih _
      _ ≤ (9 / 10) ^ k * (9 / 10 * |cam - camLimitAxis p cD wD z|) := by
          apply mul_le_mul_of_nonneg_left _ (by positivity)
          exact easeAndClampAxis_contraction cam (p - cD / z / 2) (wD - cD / z) hm
      _ = (9 / 10) ^ (k + 1) * |cam - camLimitAxis p cD wD z| := by ring

/-- C4: each frame the camera is eased one tenth of the way toward the
point that centers the player's interpolated position and clamped per
axis to `[0, worldDim - canvasDim / zoom]` (collapsing to 0 when the
visible span exceeds the world); for a stationary player at zoom 1 on the
2048-square world with an 800x600 canvas, iterating the per-frame update
converges geometrically (ratio 9/10) to
`(clamp(player.x - 400, 0, 1248), clamp(player.y - 300, 0, 1448))`. -/
theorem camera_ease_clamp_converges :
    (∀ cam t m : ℚ, m < 0 → easeAndClampAxis cam t m = 0) ∧
    (∀ cam t m : ℚ, 0 ≤ m →
      0 ≤ easeAndClampAxis cam t m ∧ easeAndClampAxis cam t m ≤ m) ∧
    (∀ (p : Pos) (cW cH z : ℚ) (cam : Pos),
      (updateCameraSmooth p cW cH z cam).x = updateCameraAxis cam.x p.x cW 2048 z ∧
      (updateCameraSmooth p cW cH z cam).y = updateCameraAxis cam.y p.y cH 2048 z) ∧
    (∀ px : ℚ, camLimitAxis px 800 2048 1 = max 0 (min (px - 400) 1248)) ∧
    (∀ py : ℚ, camLimitAxis py 600 2048 1 = max 0 (min (py - 300) 1448)) ∧
    (∀ (px : ℚ) (n : ℕ) (cam : ℚ),
      |camIterAxis px 800 2048 1 n cam - camLimitAxis px 800 2048 1| ≤
        (9 / 10) ^ n * |cam - camLimitAxis px 800 2048 1|) ∧
    (∀ (py : ℚ) (n : ℕ) (cam : ℚ),
      |camIterAxis py 600 2048 1 n cam - camLimitAxis py 600 2048 1| ≤
        (9 / 10) ^ n * |cam - camLimitAxis py 600 2048 1|) := by
  refine ⟨?_, ?_, ?_, ?_, ?_, ?_, ?_⟩
  · intro cam t m hm
    exact max_eq_left (le_of_lt (lt_of_le_of_lt (min_le_right _ _) hm))
  · intro cam t m hm
    exact ⟨le_max_left 0 _, max_le hm (min_le_right _ _)⟩
  · intro p cW cH z cam
    exact ⟨rfl, rfl⟩
  · intro px
    unfold camLimitAxis
    norm_num
  · intro py
    unfold camLimitAxis
    norm_num
  · intro px n cam
    exact camIterAxis_bound px 800 2048 1 (by norm_num) n cam
  · intro py n cam
    exact camIterAxis_bound py 600 2048 1 (by norm_num) n cam

/-- Witness for C4: the clamp collapses to 0 for a negative range, stays
in range for a nonnegative one, and one camera step from 0 for a player
at x = 1000 satisfies the geometric bound. -/
theorem camera_ease_clamp_converges_witness :
    easeAndClampAxis 5 7 (-1) = 0 ∧
    (0 : ℚ) ≤ easeAndClampAxis 5 7 100 ∧
    |camIterAxis 1000 800 2048 1 1 0 - camLimitAxis 1000 800 2048 1| ≤
      (9 / 10) ^ 1 * |0 - camLimitAxis 1000 800 2048 1| :=
  ⟨camera_ease_clamp_converges.1 5 7 (-1) (by norm_num),
   (camera_ease_clamp_converges.2.1 5 7 100 (by norm_num)).1,
   camera_ease_clamp_converges.2.2.2.2.2.1 1000 1 0⟩

end GameClient

namespace GameClient

/-- The four directional key flags (`this.keysPressed`). -/
structure KeysPressed where
  up : Bool
  down : Bool
  left : Bool
  right : Bool
deriving DecidableEq, Repr

/-- Read one key's flag (`this.keysPressed[event.key]`). -/
def KeysPressed.get (k : KeysPressed) : String → Bool
  | "ArrowUp" => k.up
  | "ArrowDown" => k.down
  | "ArrowLeft" => k.left
  | "ArrowRight" => k.right
  | _ => false

/-- Write one key's flag (`this.keysPressed[event.key] = v`). -/
def KeysPressed.set (k : KeysPressed) (key : String) (v : Bool) : KeysPressed :=
  if key = "ArrowUp" then { k with up := v }
  else if key = "ArrowDown" then { k with down := v }
  else if key = "ArrowLeft" then { k with left := v }
  else if key = "ArrowRight" then { k with right := v }
  else k

/-- `Object.values(this.keysPressed).some(pressed => pressed)`. -/
def anyKeyPressed (k : KeysPressed) : Bool :=
  k.up || k.down || k.left || k.right

/-- Outbound wire messages (`socket.send(JSON.stringify(...))`). -/
inductive OutMsg where
  | joinGame (username : String)
  | moveDir (direction : String)
  | moveTo (x y : ℤ)
  | stopMove
deriving DecidableEq, Repr

/-- The connection/input side of the client.  `movementInterval` is the
stored interval handle; `activeIntervals` is the host's table of live
interval timers; `pendingReconnects` is the host's table of pending
reconnect timeouts — the code stores no handle for those, it discards the
`setTimeout` return value.  `socketClosed` records whether the current
transport has already fired its close event. -/
structure ClientState where
  isConnected : Bool
  hasMyPlayer : Bool
  keysPressed : KeysPressed
  movementInterval : Option ℕ
  activeIntervals : List ℕ
  pendingReconnects : List ℕ
  socketClosed : Bool
  nextTimerId : ℕ
  zoomLevel : ℚ
  cameraX : ℚ
  cameraY : ℚ
deriving DecidableEq, Repr

/-- `keyToDirection` mapping from `sendMoveCommand`. -/
def keyToDirection (key : String) : Option String :=
  if key = "ArrowUp" then some "up"
  else if key = "ArrowDown" then some "down"
  else if key = "ArrowLeft" then some "left"
  else if key = "ArrowRight" then some "right"
  else none

/-- `sendMoveCommand(key)`: silently a no-op unless connected; otherwise
sends one directional move message. -/
def sendMoveCommand (st : ClientState) (key : String) : List OutMsg :=
  if st.isConnected then
    match keyToDirection key with
    | some d => [OutMsg.moveDir d]
    | none => []
  else []

/-- The fixed priority order of `sendMoveCommandForActiveKeys`. -/
def keyPriority : List String :=
  ["ArrowUp", "ArrowDown", "ArrowLeft", "ArrowRight"]

/-- `sendMoveCommandForActiveKeys`: the loop over `keyPriority` with a
`break` after the first pressed key — `List.find?` over the priority
list. -/
def sendMoveCommandForActiveKeys (st : ClientState) : List OutMsg :=
  if st.isConnected then
    match keyPriority.find? st.keysPressed.get with
    | some key => sendMoveCommand st key
    | none => []
  else []

/-- `sendStopCommand`: silently a no-op unless connected. -/
def sendStopCommand (st : ClientState) : List OutMsg :=
  if st.isConnected then [OutMsg.stopMove] else []

/-- `handleCanvasClick`: guarded on connection and local player; converts
device coordinates to world space by the inverse zoom-and-camera
transform, clamps with `Math.max(0, Math.min(w, worldDim))`, floors, and
sends an absolute move. -/
def handleCanvasClick (st : ClientState) (clickX clickY : ℚ) : List OutMsg :=
  if st.isConnected && st.hasMyPlayer then
    [OutMsg.moveTo ⌊max 0 (min (clickX / st.zoomLevel + st.cameraX) worldWidth)⌋
                   ⌊max 0 (min (clickY / st.zoomLevel + st.cameraY) worldHeight)⌋]
  else []

/-- `setInterval(...)`: the host registers a fresh live interval timer
and hands back its id. -/
def setIntervalTimer (st : ClientState) : ClientState × ℕ :=
  ({ st with activeIntervals := st.nextTimerId :: st.activeIntervals
             nextTimerId := st.nextTimerId + 1 },
   st.nextTimerId)

/-- `clearInterval(h)`: the host drops the live interval timer `h`. -/
def clearIntervalTimer (st : ClientState) (h : ℕ) : ClientState :=
  { st with activeIntervals := st.activeIntervals.filter (fun i => i ≠ h) }

/-- `startContinuousMovement`: the non-null check on `movementInterval`
makes a second start a no-op; otherwise it sends one immediate move and
registers the 100 ms interval. -/
def startContinuousMovement (st : ClientState) : ClientState × List OutMsg :=
  match st.movementInterval with
  | some _ => (st, [])
  | none =>
    let msgs := sendMoveCommandForActiveKeys st
    let p := setIntervalTimer st
    ({ p.1 with movementInterval := some p.2 }, msgs)

/-- `stopContinuousMovement`: cancels the interval when one is stored and
clears the handle, then sends a stop command unconditionally. -/
def stopContinuousMovement (st : ClientState) : ClientState × List OutMsg :=
  let st1 :=
    match st.movementInterval with
    | some h => { clearIntervalTimer st h with movementInterval := none }
    | none => st
  (st1, sendStopCommand st1)

/-- The arrow-key filter shared by `handleKeyDown` and `handleKeyUp`. -/
def arrowKeys : List String :=
  ["ArrowUp", "ArrowDown", "ArrowLeft", "ArrowRight"]

/-- `handleKeyDown`: ignore non-arrow keys and repeat keydown events;
otherwise mark the key pressed and start continuous movement. -/
def handleKeyDown (st : ClientState) (key : String) : ClientState × List OutMsg :=
  if arrowKeys.contains key then
    if st.keysPressed.get key then (st, [])
    else startContinuousMovement { st with keysPressed := st.keysPressed.set key true }
  else (st, [])

/-- `handleKeyUp`: ignore non-arrow keys; mark the key released and stop
continuous movement when no directional key remains pressed. -/
def handleKeyUp (st : ClientState) (key : String) : ClientState × List OutMsg :=
  if arrowKeys.contains key then
    let st1 := { st with keysPressed := st.keysPressed.set key false }
    if anyKeyPressed st1.keysPressed then (st1, [])
    else stopContinuousMovement st1
  else (st, [])

/-- The body of the `socket.onclose` handler: set disconnected and
schedule one reconnect timeout — the `setTimeout` return value is
discarded, no handle is stored and no null check guards the scheduling. -/
def oncloseHandler (st : ClientState) : ClientState :=
  { st with isConnected := false
            pendingReconnects := st.nextTimerId :: st.pendingReconnects
            nextTimerId := st.nextTimerId + 1 }

/-- `connectToServer`: opens a fresh transport (whose close event has not
fired yet). -/
def connectToServer (st : ClientState) : ClientState :=
  { st with socketClosed := false }

/-- Events of the connection/input state machine.  `socketClose` is
delivered by the host at most once per transport (encoded by the
`socketClosed` flag); `reconnectTimerFire` and `movementTimerFire` only
fire for timers the host still holds. -/
inductive ClientEvent where
  | keyDown (key : String)
  | keyUp (key : String)
  | movementTimerFire (h : ℕ)
  | socketOpen
  | socketClose
  | reconnectTimerFire (h : ℕ)
deriving DecidableEq, Repr

def stepClient (st : ClientState) : ClientEvent → ClientState × List OutMsg
  | .keyDown k => handleKeyDown st k
  | .keyUp k => handleKeyUp st k
  | .movementTimerFire h =>
    if st.activeIntervals.contains h then (st, sendMoveCommandForActiveKeys st)
    else (st, [])
  | .socketOpen => ({ st with isConnected := true }, [OutMsg.joinGame "Mike"])
  | .socketClose =>
    if st.socketClosed then (st, [])
    else (oncloseHandler { st with socketClosed := true }, [])
  | .reconnectTimerFire h =>
    if st.pendingReconnects.contains h then
      (connectToServer
        { st with pendingReconnects := st.pendingReconnects.filter (fun i => i ≠ h) },
       [])
    else (st, [])

def runClient (st : ClientState) (es : List ClientEvent) : ClientState :=
  es.foldl (fun s e => (stepClient s e).1) st

/-- The client state at page load. -/
def initClientState : ClientState :=
  { isConnected := false
    hasMyPlayer := false
    keysPressed := ⟨false, false, false, false⟩
    movementInterval := none
    activeIntervals := []
    pendingReconnects := []
    socketClosed := false
    nextTimerId := 0
    zoomLevel := 1
    cameraX := 0
    cameraY := 0 }

/-- Timer sanity: the stored interval handle matches the host's live
interval table exactly, at most one reconnect timeout is pending, and a
pending reconnect implies the transport already closed. -/
def TimerInv (st : ClientState) : Prop :=
  (∀ h, st.movementInterval = some h → st.activeIntervals = [h]) ∧
  (st.movementInterval = none → st.activeIntervals = []) ∧
  st.pendingReconnects.length ≤ 1 ∧
  (st.pendingReconnects ≠ [] → st.socketClosed = true)

/-- The direction of the highest-priority pressed key, in the fixed order
Up before Down before Left before Right. -/
def prioDirection (k : KeysPressed) : Option String :=
  if k.up then some "up"
  else if k.down then some "down"
  else if k.left then some "left"
  else if k.right then some "right"
  else none

theorem sendMoveCommandForActiveKeys_eq (st : ClientState)
    (hc : st.isConnected = true) :
    sendMoveCommandForActiveKeys st =
      match prioDirection st.keysPressed with
      | some d => [OutMsg.moveDir d]
      | none => [] := by
  rcases hkp : st.keysPressed with ⟨u, d, l, r⟩
  unfold sendMoveCommandForActiveKeys keyPriority sendMoveCommand keyToDirection
    prioDirection
  rw [hc, hkp]
  cases u <;> cases d <;> cases l <;> cases r <;>
    simp [KeysPressed.get, List.find?, hc]

/-- C6: with the session connected, every emission with at least one
directional key held sends exactly one move action, for the
highest-priority pressed key in the order Up, Down, Left, Right; in
particular Up held (whatever else is held) sends only `"up"`, and with Up
and Down released and Left held the emission sends `"left"`. -/
theorem movement_priority_single_action :
    (∀ st : ClientState, st.isConnected = true →
      anyKeyPressed st.keysPressed = true →
      ∃ d, prioDirection st.keysPressed = some d ∧
        sendMoveCommandForActiveKeys st = [OutMsg.moveDir d]) ∧
    (∀ st : ClientState, st.isConnected = true → st.keysPressed.up = true →
      sendMoveCommandForActiveKeys st = [OutMsg.moveDir "up"]) ∧
    (∀ st : ClientState, st.isConnected = true → st.keysPressed.up = false →
      st.keysPressed.down = false → st.keysPressed.left = true →
      sendMoveCommandForActiveKeys st = [OutMsg.moveDir "left"]) := by
  refine ⟨?_, ?_, ?_⟩
  · intro st hc hk
    rw [sendMoveCommandForActiveKeys_eq st hc]
    rcases hkp : st.keysPressed with ⟨u, d, l, r⟩
    rw [hkp] at hk
    cases u <;> cases d <;> cases l <;> cases r <;>
      simp_all [prioDirection, anyKeyPressed]
  · intro st hc hup
    rw [sendMoveCommandForActiveKeys_eq st hc]
    unfold prioDirection
    rw [hup]
    rfl
  · intro st hc hup hdown hleft
    rw [sendMoveCommandForActiveKeys_eq st hc]
    unfold prioDirection
    rw [hup, hdown, hleft]
    rfl

/-- Witness for C6: Up and Left held sends only `"up"`; Left alone sends
`"left"`. -/
theorem movement_priority_single_action_witness :
    sendMoveCommandForActiveKeys
        { initClientState with isConnected := true
                               keysPressed := ⟨true, false, true, false⟩ } =
      [OutMsg.moveDir "up"] ∧
    sendMoveCommandForActiveKeys
        { initClientState with isConnected := true
                               keysPressed := ⟨false, false, true, false⟩ } =
      [OutMsg.moveDir "left"] :=
  ⟨movement_priority_single_action.2.1 _ rfl rfl,
   movement_priority_single_action.2.2 _ rfl rfl rfl rfl⟩

theorem clamp_zero_min_comm (w m : ℚ) (hm : 0 ≤ m) :
    max 0 (min w m) = min (max w 0) m := by
  rcases le_total w 0 with h | h
  · rw [min_eq_left (h.trans hm), max_eq_left h, max_eq_right h, min_eq_left hm]
  · rcases le_total w m with h2 | h2
    · rw [min_eq_left h2, max_eq_right h, max_eq_left h, min_eq_left h2]
    · rw [min_eq_right h2, max_eq_right hm, max_eq_left h, min_eq_right h2]

/-- C7: when connected with a local player, a click at device coordinates
`(clickX, clickY)` sends exactly one absolute move whose coordinates are
the floors of the inverse zoom-and-camera transform of the click, clamped
to `[0, 2048]` on each axis. -/
theorem click_to_move_transform (st : ClientState) (clickX clickY : ℚ)
    (hc : st.isConnected = true) (hp : st.hasMyPlayer = true) :
    handleCanvasClick st clickX clickY =
      [OutMsg.moveTo ⌊min (max (clickX / st.zoomLevel + st.cameraX) 0) 2048⌋
                     ⌊min (max (clickY / st.zoomLevel + st.cameraY) 0) 2048⌋] := by
  unfold handleCanvasClick worldWidth worldHeight
  rw [hc, hp]
  rw [clamp_zero_min_comm (clickX / st.zoomLevel + st.cameraX) 2048 (by norm_num),
    clamp_zero_min_comm (clickY / st.zoomLevel + st.cameraY) 2048 (by norm_num)]
  rfl

/-- Witness for C7: a click at (100, 50) with zoom 2 and camera (10, 20)
targets world point (60, 45). -/
theorem click_to_move_transform_witness :
    handleCanvasClick
        { initClientState with isConnected := true
                               hasMyPlayer := true
                               zoomLevel := 2
                               cameraX := 10
                               cameraY := 20 } 100 50 =
      [OutMsg.moveTo 60 45] := by
  rw [click_to_move_transform _ 100 50 rfl rfl]
  norm_num

/-- C9: with the session not connected, every outbound send path is a
silent no-op: a directional move, the priority emission, a click-to-move,
and a stop each transmit nothing, and delivering a movement-interval tick
leaves the client state unchanged.  (The send functions themselves read
state without writing it, so a failed send can change nothing.) -/
theorem send_noop_when_disconnected (st : ClientState) (key : String)
    (clickX clickY : ℚ) (h : st.isConnected = false) :
    sendMoveCommand st key = [] ∧
    sendMoveCommandForActiveKeys st = [] ∧
    sendStopCommand st = [] ∧
    handleCanvasClick st clickX clickY = [] ∧
    (∀ hT : ℕ, (stepClient st (.movementTimerFire hT)).1 = st) := by
  refine ⟨?_, ?_, ?_, ?_, ?_⟩
  · unfold sendMoveCommand; rw [h]; rfl
  · unfold sendMoveCommandForActiveKeys; rw [h]; rfl
  · unfold sendStopCommand; rw [h]; rfl
  · unfold handleCanvasClick; rw [h]; rfl
  · intro hT
    show (if st.activeIntervals.contains hT then (st, sendMoveCommandForActiveKeys st)
      else (st, [])).1 = st
    split <;> rfl

/-- Witness for C9 at the initial (disconnected) state. -/
theorem send_noop_when_disconnected_witness :
    sendMoveCommand initClientState "ArrowUp" = [] ∧
    handleCanvasClick initClientState 100 50 = [] :=
  ⟨(send_noop_when_disconnected initClientState "ArrowUp" 100 50 rfl).1,
   (send_noop_when_disconnected initClientState "ArrowUp" 100 50 rfl).2.2.2.1⟩

/-- C10: a key-up for a directional key while connected, with every
directional key already released and no movement interval running, still
sends exactly one stop action — `stopContinuousMovement` skips only the
`clearInterval`, not the `sendStopCommand`. -/
theorem keyup_sends_stop_without_interval (st : ClientState) (key : String)
    (hc : st.isConnected = true)
    (hk : st.keysPressed = ⟨false, false, false, false⟩)
    (hi : st.movementInterval = none)
    (hkey : arrowKeys.contains key = true) :
    (handleKeyUp st key).2 = [OutMsg.stopMove] ∧
    (handleKeyUp st key).1.movementInterval = none := by
  have hset : st.keysPressed.set key false = ⟨false, false, false, false⟩ := by
    rw [hk]; unfold KeysPressed.set; split_ifs <;> rfl
  unfold handleKeyUp
  rw [hkey, hset]
  simp only [if_true, anyKeyPressed, Bool.or_self, Bool.false_or, if_false]
  unfold stopContinuousMovement sendStopCommand
  simp only [hi, hc]
  exact ⟨rfl, rfl⟩

/-- Witness for C10: a stray ArrowUp key-up in the connected idle state
emits exactly one stop. -/
theorem keyup_sends_stop_without_interval_witness :
    (handleKeyUp { initClientState with isConnected := true } "ArrowUp").2 =
      [OutMsg.stopMove] :=
  (keyup_sends_stop_without_interval { initClientState with isConnected := true }
    "ArrowUp" rfl rfl rfl rfl).1

theorem length_le_one_contains_eq {l : List ℕ} {a : ℕ} (h1 : l.length ≤ 1)
    (h2 : l.contains a = true) : l = [a] := by
  cases l with
  | nil => simp at h2
  | cons b rest =>
    cases rest with
    | nil =>
      have hm : a ∈ [b] := by simpa using h2
      rw [List.mem_singleton] at hm
      rw [hm]
    | cons c rest2 => simp at h1

theorem timerInv_start (st : ClientState) (h : TimerInv st) :
    TimerInv (startContinuousMovement st).1 := by
  obtain ⟨hA, hB, hC, hD⟩ := h
  have hfst : (startContinuousMovement st).1 =
      match st.movementInterval with
      | some _ => st
      | none =>
        { st with activeIntervals := st.nextTimerId :: st.activeIntervals
                  nextTimerId := st.nextTimerId + 1
                  movementInterval := some st.nextTimerId } := by
    unfold startContinuousMovement setIntervalTimer
    cases st.movementInterval <;> rfl
  rw [hfst]
  split
  · exact ⟨hA, hB, hC, hD⟩
  case h_2 heq =>
    refine ⟨?_, ?_, hC, hD⟩
    · intro hh hmm
      injection hmm with he
      show st.nextTimerId :: st.activeIntervals = [hh]
      rw [← he, hB heq]
    · intro hmm
      exact Option.noConfusion hmm

theorem timerInv_stop (st : ClientState) (h : TimerInv st) :
    TimerInv (stopContinuousMovement st).1 ∧
    (stopContinuousMovement st).1.activeIntervals = [] ∧
    (stopContinuousMovement st).1.movementInterval = none := by
  obtain ⟨hA, hB, hC, hD⟩ := h
  have hfst : (stopContinuousMovement st).1 =
      match st.movementInterval with
      | some x => { clearIntervalTimer st x with movementInterval := none }
      | none => st := rfl
  rw [hfst]
  split
  case h_1 x heq =>
    have hfilter : st.activeIntervals.filter (fun i => i ≠ x) = [] := by
      rw [hA x heq]; simp
    refine ⟨⟨?_, ?_, hC, hD⟩, ?_, rfl⟩
    · intro hh hmm
      exact Option.noConfusion hmm
    · intro _
      exact hfilter
    · exact hfilter
  case h_2 heq =>
    exact ⟨⟨hA, hB, hC, hD⟩, hB heq, heq⟩

theorem timerInv_step (st : ClientState) (e : ClientEvent) (h : TimerInv st) :
    TimerInv (stepClient st e).1 := by
  obtain ⟨hA, hB, hC, hD⟩ := h
  cases e with
  | keyDown k =>
    show TimerInv (handleKeyDown st k).1
    unfold handleKeyDown
    split
    · split
      · exact ⟨hA, hB, hC, hD⟩
      · exact timerInv_start _ ⟨hA, hB, hC, hD⟩
    · exact ⟨hA, hB, hC, hD⟩
  | keyUp k =>
    show TimerInv (handleKeyUp st k).1
    unfold handleKeyUp
    dsimp only
    split
    · split
      · exact ⟨hA, hB, hC, hD⟩
      · exact (timerInv_stop
          { st with keysPressed := st.keysPressed.set k false } ⟨hA, hB, hC, hD⟩).1
    · exact ⟨hA, hB, hC, hD⟩
  | movementTimerFire x =>
    show TimerInv (if st.activeIntervals.contains x then
        (st, sendMoveCommandForActiveKeys st) else (st, [])).1
    split <;> exact ⟨hA, hB, hC, hD⟩
  | socketOpen =>
    exact ⟨hA, hB, hC, hD⟩
  | socketClose =>
    show TimerInv (if st.socketClosed then (st, [])
      else (oncloseHandler { st with socketClosed := true }, [])).1
    split
    · exact ⟨hA, hB, hC, hD⟩
    case isFalse hcl =>
      have hpend : st.pendingReconnects = [] := by
        by_contra hne
        exact hcl (hD hne)
      refine ⟨hA, hB, ?_, fun _ => rfl⟩
      show (st.nextTimerId :: st.pendingReconnects).length ≤ 1
      rw [hpend]
      exact le_refl 1
  | reconnectTimerFire x =>
    show TimerInv (if st.pendingReconnects.contains x then
        (connectToServer
          { st with pendingReconnects := st.pendingReconnects.filter (fun i => i ≠ x) },
         ([] : List OutMsg))
      else (st, [])).1
    split
    case isTrue hct =>
      have hpr : st.pendingReconnects = [x] := length_le_one_contains_eq hC hct
      have hfilter : st.pendingReconnects.filter (fun i => i ≠ x) = [] := by
        rw [hpr]; simp
      refine ⟨hA, hB, ?_, ?_⟩
      · show (st.pendingReconnects.filter (fun i => i ≠ x)).length ≤ 1
        rw [hfilter]
        exact Nat.zero_le 1
      · intro hne
        exact absurd hfilter hne
    · exact ⟨hA, hB, hC, hD⟩

/-- C5 counterexample: the `onclose` handler stores no handle for the
reconnect timeout and performs no non-null check — applied to a state
that already holds one pending reconnect timeout, it schedules a second
one, so nothing in the handler prevents starting a new reconnect timer
while one is pending. -/
theorem reconnect_timer_unguarded_counterexample :
    ({ initClientState with pendingReconnects := [0]
                            nextTimerId := 1
                            socketClosed := true } : ClientState).pendingReconnects.length = 1 ∧
    (oncloseHandler { initClientState with pendingReconnects := [0]
                                           nextTimerId := 1
                                           socketClosed := true }).pendingReconnects = [1, 0] ∧
    (oncloseHandler { initClientState with pendingReconnects := [0]
                                           nextTimerId := 1
                                           socketClosed := true }).pendingReconnects.length = 2 :=
  ⟨rfl, rfl, rfl⟩

/-- C5 amended: in every state reachable from page load there is at most
one live movement interval — the stored `movementInterval` handle matches
the host's live-interval table, kept single by the non-null check in
`startContinuousMovement` — and at most one pending reconnect timeout;
`stopContinuousMovement` cancels the interval before clearing its handle,
leaving no live interval behind.  The reconnect timeout, however, is kept
single only because each transport fires `close` at most once and a new
transport is created only when the pending attempt fires: the code stores
no reconnect handle and checks none. -/
theorem single_timer_invariant :
    (∀ es : List ClientEvent,
      TimerInv (runClient initClientState es) ∧
      (runClient initClientState es).activeIntervals.length ≤ 1 ∧
      (runClient initClientState es).pendingReconnects.length ≤ 1) ∧
    (∀ st : ClientState, TimerInv st →
      (stopContinuousMovement st).1.activeIntervals = [] ∧
      (stopContinuousMovement st).1.movementInterval = none) := by
  have hrun : ∀ (es : List ClientEvent) (st : ClientState),
      TimerInv st → TimerInv (runClient st es) := by
    intro es
    induction es with
    | nil => intro st h; exact h
    | cons e rest ih =>
      intro st h
      exact ih (stepClient st e).1 (timerInv_step st e h)
  have hinit : TimerInv initClientState := by
    refine ⟨?_, fun _ => rfl, Nat.zero_le 1, fun hne => absurd rfl hne⟩
    intro hh hmm
    exact Option.noConfusion hmm
  constructor
  · intro es
    have hI := hrun es initClientState hinit
    refine ⟨hI, ?_, hI.2.2.1⟩
    cases hmi : (runClient initClientState es).movementInterval with
    | none =>
      rw [hI.2.1 hmi]
      exact Nat.zero_le 1
    | some x =>
      rw [hI.1 x hmi]
      exact le_refl 1
  · intro st h
    exact (timerInv_stop st h).2

/-- Witness for the amended C5: a stop from a state with one live
interval leaves none, and one transport close from page load leaves at
most one pending reconnect. -/
theorem single_timer_invariant_witness :
    (stopContinuousMovement
        { initClientState with movementInterval := some 5
                               activeIntervals := [5] }).1.activeIntervals = [] ∧
    (runClient initClientState [ClientEvent.socketClose]).pendingReconnects.length ≤ 1 := by
  constructor
  · refine (single_timer_invariant.2
      { initClientState with movementInterval := some 5, activeIntervals := [5] }
      ⟨?_, ?_, Nat.zero_le 1, fun hne => absurd rfl hne⟩).1
    · intro hh hmm
      injection hmm with he
      rw [he]
    · intro hmm
      exact Option.noConfusion hmm
  · exact (single_timer_invariant.1 [ClientEvent.socketClose]).2.2

end GameClient
